import Mathlib

/-!
Verification development for the Android Backup Buddy backup/restore
pipeline (source file `backup.py`).

The development shallowly embeds the core of `BackupManager`:

* the content-query row parsers of `backup_sms` (lines 210-245) and
  `backup_contacts` (lines 146-169), over strings modelled as `List Char`,
  with Python string primitives (`find`, `split`, `replace`, `strip`,
  `endswith`, substring membership) reproduced as executable functions;
* the key store `_get_key` (lines 28-38) and the buggy `_load_key`
  (lines 19-26);
* `decrypt_backup` (lines 97-122), `backup_device` (lines 40-95) and
  `restore_backup` (lines 260-374) as state transformers over a small
  filesystem model (a list of path/content entries), with an environment
  record supplying the outcome of each fallible external step (adb pull,
  archive creation, file open/write, adb push, content insert).  Fernet
  authenticated encryption is modelled symbolically: a ciphertext value
  records the key that produced it, decryption succeeds exactly on a
  ciphertext produced under the same key, and any other content fails
  authentication.  A file write that fails after the output file was
  opened leaves a `halfWritten` entry behind (POSIX `open(.., "wb")`
  creates/truncates the file before `write` runs), which is what makes
  partial-artifact questions expressible.
-/

namespace ABB

/-- Strings are modelled as lists of characters. -/
abbrev Str := List Char

/-- Whitespace stripped by Python `str.strip` (ASCII subset). -/
def isPyWS (c : Char) : Bool :=
  (c == ' ') || (c == '\t') || (c == '\n') || (c == '\r') || (c == '\x0b') || (c == '\x0c')

/-- Python `str.strip()`: drop whitespace from both ends. -/
def pyStrip (s : Str) : Str :=
  ((s.dropWhile isPyWS).reverse.dropWhile isPyWS).reverse

/-- Python `str.find(pat)`: index of the first occurrence of `pat`,
`none` standing for Python's `-1`. -/
def findSub : Str → Str → Option Nat
  | [], pat => if pat = [] then some 0 else none
  | c :: rest, pat =>
    if pat.isPrefixOf (c :: rest) then some 0
    else (findSub rest pat).map (· + 1)

/-- Python `pat in s` substring test. -/
def containsSub (s pat : Str) : Bool :=
  (findSub s pat).isSome

/-- Python `s.endswith(suf)`. -/
def endsWithL (suf s : Str) : Bool :=
  suf.reverse.isPrefixOf s.reverse

/-- Fuel-driven core of Python `str.replace`: replace every non-overlapping
occurrence of `old` by `new`, scanning left to right. -/
def pyReplaceFuel (old new : Str) : Nat → Str → Str
  | 0, s => s
  | _ + 1, [] => []
  | fuel + 1, c :: rest =>
    if (!old.isEmpty) && old.isPrefixOf (c :: rest) then
      new ++ pyReplaceFuel old new fuel (List.drop (old.length - 1) rest)
    else
      c :: pyReplaceFuel old new fuel rest

/-- Python `s.replace(old, new)` (all occurrences, left to right). -/
def pyReplace (old new s : Str) : Str :=
  pyReplaceFuel old new s.length s

/-- Fuel-driven scan returning the text after the last non-overlapping
occurrence of `m` (`none` when `m` does not occur). -/
def afterLastFuel (m : Str) : Nat → Str → Option Str
  | 0, _ => none
  | _ + 1, [] => none
  | fuel + 1, c :: rest =>
    if (!m.isEmpty) && m.isPrefixOf (c :: rest) then
      match afterLastFuel m fuel (List.drop (m.length - 1) rest) with
      | some t => some t
      | none => some (List.drop (m.length - 1) rest)
    else afterLastFuel m fuel rest

/-- Python `s.split(m)[-1]`: the text after the last occurrence of `m`,
or all of `s` when `m` does not occur. -/
def pySplitLast (m s : Str) : Str :=
  match afterLastFuel m s.length s with
  | some t => t
  | none => s

/-- Field extraction of `backup_sms` (lines 219-235): locate the first
occurrence of `marker`, take the text up to the next comma (or end of
line), strip whitespace.  Empty when the marker is absent. -/
def extractCommaField (line marker : Str) : Str :=
  match findSub line marker with
  | none => []
  | some i =>
    let rest := line.drop (i + marker.length)
    match findSub rest [','] with
    | none => pyStrip rest
    | some j => pyStrip (rest.take j)

/-- Body extraction of `backup_sms` (lines 237-240): everything from after
the first occurrence of `marker` to the end of the line, stripped. -/
def extractToEol (line marker : Str) : Str :=
  match findSub line marker with
  | none => []
  | some i => pyStrip (line.drop (i + marker.length))

/-- Literal `"Row:"`. -/
def rowMark : Str := "Row:".toList
/-- Literal `"address="`. -/
def addrMark : Str := "address=".toList
/-- Literal `"date="`. -/
def dateMark : Str := "date=".toList
/-- Literal `"type="`. -/
def typeMark : Str := "type=".toList
/-- Literal `"body="`. -/
def bodyMark : Str := "body=".toList
/-- Literal `"display_name="`. -/
def nameMark : Str := "display_name=".toList
/-- Literal `"data1="`. -/
def phoneMark : Str := "data1=".toList
/-- Literal `".enc"`. -/
def encSuf : Str := ".enc".toList
/-- Literal `".zip"`. -/
def zipSuf : Str := ".zip".toList
/-- Literal `".vcf"`. -/
def vcfSuf : Str := ".vcf".toList
/-- Literal `".json"`. -/
def jsonSuf : Str := ".json".toList
/-- Literal `"0"`, the default `date`. -/
def zeroStr : Str := "0".toList
/-- Literal `"1"`, the default `type`. -/
def oneStr : Str := "1".toList
/-- Literal `"/"`, the path separator. -/
def slashStr : Str := "/".toList

/-- A parsed SMS record (the dict built in `backup_sms`, line 216). -/
structure Msg where
  address : Str
  date : Str
  body : Str
  msgType : Str
deriving DecidableEq

/-- Value `backup_sms` assigns to `msg["address"]` for a given line:
comma-delimited extraction after `"address="`, or `""` when the marker is
absent (lines 216, 219-223). -/
def smsAddress (line : Str) : Str :=
  if containsSub line addrMark then extractCommaField line addrMark else []

/-- Value of `msg["date"]`: defaults to `"0"` when `"date="` is absent
(lines 216, 225-229). -/
def smsDate (line : Str) : Str :=
  if containsSub line dateMark then extractCommaField line dateMark else zeroStr

/-- Value of `msg["type"]`: defaults to `"1"` when `"type="` is absent
(lines 216, 231-235). -/
def smsType (line : Str) : Str :=
  if containsSub line typeMark then extractCommaField line typeMark else oneStr

/-- Value of `msg["body"]`: the rest of the line after the first
`"body="`, or `""` when absent (lines 216, 237-240). -/
def smsBody (line : Str) : Str :=
  if containsSub line bodyMark then extractToEol line bodyMark else []

/-- Per-line parser of `backup_sms` (lines 213-245): lines without
`"Row:"` are skipped and a row is kept only when both `address` and
`body` are non-empty. -/
def parseSmsLine (line : Str) : Option Msg :=
  if containsSub line rowMark then
    if smsAddress line = [] ∨ smsBody line = [] then none
    else some ⟨smsAddress line, smsDate line, smsBody line, smsType line⟩
  else none

/-- The full SMS output parser: one record per qualifying line. -/
def parseSmsOutput (lines : List Str) : List Msg :=
  lines.filterMap parseSmsLine

/-- Name contributed by one comma-separated fragment in
`backup_contacts` (lines 155-157): the stripped text after the last
`"display_name="` in the fragment. -/
def partNameVal (part : Str) : Option Str :=
  if containsSub part nameMark then some (pyStrip (pySplitLast nameMark part)) else none

/-- Phone contributed by one fragment (lines 158-159); the `elif` makes a
fragment containing `"display_name="` never contribute a phone. -/
def partPhoneVal (part : Str) : Option Str :=
  if containsSub part nameMark then none
  else if containsSub part phoneMark then some (pyStrip (pySplitLast phoneMark part))
  else none

/-- The fragment loop of `backup_contacts` (lines 155-159): later
fragments overwrite earlier ones. -/
def contactFold : List Str → Str × Str → Str × Str
  | [], acc => acc
  | p :: ps, acc =>
    contactFold ps
      (match partNameVal p with
       | some v => (v, acc.2)
       | none =>
         match partPhoneVal p with
         | some w => (acc.1, w)
         | none => acc)

/-- Per-line parser of `backup_contacts` (lines 149-169): split the line
on commas, fold the fragments, keep the row only when both name and
phone are non-empty. -/
def parseContactLine (line : Str) : Option (Str × Str) :=
  if containsSub line rowMark then
    let np := contactFold (line.splitOn ',') ([], [])
    if np.1 = [] ∨ np.2 = [] then none else some np
  else none

/-- The full contacts output parser. -/
def parseContactsOutput (lines : List Str) : List (Str × Str) :=
  lines.filterMap parseContactLine

/-! ## Filesystem model -/

/-- A path in the local filesystem. -/
abbrev Path := Str

/-- Content of a filesystem entry.  `enc k d` is a Fernet token produced
by encrypting `d` under key `k` (symbolic authenticated encryption);
`junk` is corrupted or foreign content that authenticates under no key;
`zipA es` is an archive whose top-level entries are named `es`;
`halfWritten` marks a file whose write failed after `open(.., "wb")`
created it. -/
inductive Data where
  | dir : Data
  | bytes : List Nat → Data
  | enc : List Nat → Data → Data
  | junk : Nat → Data
  | zipA : List Str → Data
  | msgs : List Msg → Data
  | halfWritten : Data
deriving DecidableEq

/-- The local filesystem: a finite list of path/content entries. -/
abbrev FS := List (Path × Data)

/-- Look a path up in the filesystem. -/
def lookupFS : FS → Path → Option Data
  | [], _ => none
  | (q, d) :: rest, p => if p = q then some d else lookupFS rest p

/-- Python `os.path.exists`. -/
def fsExists (fs : FS) (p : Path) : Bool :=
  (lookupFS fs p).isSome

/-- Remove the entry at exactly `p` (Python `os.remove`, a no-op here
when `p` is absent). -/
def removeFile : FS → Path → FS
  | [], _ => []
  | (q, d) :: rest, p =>
    if q = p then removeFile rest p else (q, d) :: removeFile rest p

/-- Create or overwrite the entry at `p`. -/
def setFS (fs : FS) (p : Path) (d : Data) : FS :=
  (p, d) :: removeFile fs p

/-- Whether `p` is the directory `d` itself or lies underneath it. -/
def underDir (d p : Path) : Bool :=
  decide (p = d) || (d ++ slashStr).isPrefixOf p

/-- Python `shutil.rmtree d`: remove `d` and everything under it. -/
def removeTree : FS → Path → FS
  | [], _ => []
  | (q, c) :: rest, d =>
    if underDir d q then removeTree rest d else (q, c) :: removeTree rest d

/-- Create directory `d` holding files named by `entries` (used for the
workspace populated by `adb pull` and for `shutil.unpack_archive`). -/
def addPulled (fs : FS) (d : Path) (entries : List Str) : FS :=
  entries.foldl (fun acc e => setFS acc (d ++ slashStr ++ e) (Data.bytes []))
    (setFS fs d Data.dir)

/-! ## Key store -/

/-- Literal `"backup_key.key"`, the fixed key path of `_get_key`. -/
def keyPath : Path := "backup_key.key".toList

/-- `_get_key` (lines 28-38): read the key file raw if it exists,
otherwise generate `newKey`, persist and return it.  A key file holding
content that is not raw bytes makes the subsequent `Fernet(key)`
construction fail, modelled as `none`. -/
def getKey (newKey : List Nat) (fs : FS) : Option (List Nat) × FS :=
  match lookupFS fs keyPath with
  | some (Data.bytes k) => (some k, fs)
  | some _ => (none, fs)
  | none => (some newKey, setFS fs keyPath (Data.bytes newKey))

/-- `_load_key` (lines 19-26).  When the file exists the code first runs
`open(key_path, "wb")` — which truncates the file to zero bytes — and
only then reads it back with `"rb"`, so it returns `b""` and destroys
the stored key. -/
def loadKey (kp : Path) (newKey : List Nat) (fs : FS) : Option (List Nat) × FS :=
  if fsExists fs kp then
    let fs1 := setFS fs kp (Data.bytes [])
    match lookupFS fs1 kp with
    | some (Data.bytes k) => (some k, fs1)
    | _ => (none, fs1)
  else (some newKey, setFS fs kp (Data.bytes newKey))

/-! ## Encryption pipeline -/

/-- Symbolic Fernet decryption: succeeds exactly on a token produced
under the same key; any other content raises `InvalidToken`. -/
def fernetDecrypt (k : List Nat) : Data → Option Data
  | Data.enc k' d => if k' = k then some d else none
  | _ => none

/-- Outcomes of the fallible I/O steps inside `decrypt_backup`. -/
structure DecEnv where
  readOk : Bool
  openOk : Bool
  writeOk : Bool

/-- `decrypt_backup` (lines 97-122): load the key, read the ciphertext,
authenticate-and-decrypt, then write the plaintext to `outputPath`
(default: the input path with every `".enc"` replaced by `".zip"`,
line 113).  Any failure is caught and reported as `none`; a write that
fails after the output file was opened leaves a `halfWritten` entry. -/
def decrypt_backup (env : DecEnv) (newKey : List Nat) (encryptedPath : Path)
    (outputPath : Option Path) (fs : FS) : Option Path × FS :=
  match getKey newKey fs with
  | (none, fs1) => (none, fs1)
  | (some k, fs1) =>
    if env.readOk then
      match lookupFS fs1 encryptedPath with
      | none => (none, fs1)
      | some d =>
        match fernetDecrypt k d with
        | none => (none, fs1)
        | some plain =>
          let out := outputPath.getD (pyReplace encSuf zipSuf encryptedPath)
          if env.openOk then
            if env.writeOk then (some out, setFS fs1 out plain)
            else (none, setFS fs1 out Data.halfWritten)
          else (none, fs1)
    else (none, fs1)

/-! ## Backup orchestration -/

/-- Outcomes of the fallible steps inside `backup_device`. -/
structure BackupEnv where
  pullOk : Bool
  pullMadeDir : Bool
  pulled : List Str
  archiveOk : Bool
  openOk : Bool
  writeOk : Bool
  newKey : List Nat

/-- The workspace name `f"temp_backup_{device_id}_{timestamp}"`
(line 50). -/
def tempBackupDir (deviceId timestamp : Str) : Path :=
  "temp_backup_".toList ++ deviceId ++ "_".toList ++ timestamp

/-- The artifact path
`os.path.join(dest_folder, f"backup_{device_id}_{timestamp}.enc")`
(lines 74-75). -/
def encArtifactPath (deviceId timestamp : Str) (destFolder : Path) : Path :=
  destFolder ++ "/backup_".toList ++ deviceId ++ "_".toList ++ timestamp ++ encSuf

/-- The `finally` block of `backup_device` (lines 90-95): remove the
workspace tree and the intermediate zip. -/
def backupCleanup (tempDir : Path) (fs : FS) : FS :=
  removeFile (removeTree fs tempDir) (tempDir ++ zipSuf)

/-- The `try` body of `backup_device` (lines 52-89): pull into the
workspace, archive it, load the key, read the archive, write the
encrypted artifact.  Each failure returns `none` (the `except` arms). -/
def backupBody (deviceId timestamp : Str) (destFolder : Path) (env : BackupEnv)
    (fs : FS) : Option Path × FS :=
  let tempDir := tempBackupDir deviceId timestamp
  if env.pullOk then
    let fs1 := addPulled fs tempDir env.pulled
    if env.archiveOk then
      let zipP := tempDir ++ zipSuf
      let fs2 := setFS fs1 zipP (Data.zipA env.pulled)
      match getKey env.newKey fs2 with
      | (none, fs3) => (none, fs3)
      | (some k, fs3) =>
        match lookupFS fs3 zipP with
        | none => (none, fs3)
        | some zd =>
          let encP := encArtifactPath deviceId timestamp destFolder
          if env.openOk then
            if env.writeOk then (some encP, setFS fs3 encP (Data.enc k zd))
            else (none, setFS fs3 encP Data.halfWritten)
          else (none, fs3)
    else (none, fs1)
  else (none, if env.pullMadeDir then setFS fs tempDir Data.dir else fs)

/-- `backup_device` (lines 40-95): ensure the destination folder exists,
run the body, then always run the cleanup. -/
def backup_device (deviceId timestamp : Str) (sourcePath destFolder : Path)
    (env : BackupEnv) (fs : FS) : Option Path × FS :=
  let _ := sourcePath
  let fs0 := if fsExists fs destFolder then fs else setFS fs destFolder Data.dir
  let r := backupBody deviceId timestamp destFolder env fs0
  (r.1, backupCleanup (tempBackupDir deviceId timestamp) r.2)

/-! ## Restore orchestration -/

/-- Outcomes of the fallible steps inside `restore_backup`. -/
structure RestoreEnv where
  vcfPushOk : Bool
  intentOk : Bool
  insertOk : Nat → Bool
  dec : DecEnv
  newKey : List Nat
  unzipOk : Bool
  unzipMadeDir : Bool
  pushOk : Nat → Bool

/-- Observable result of `restore_backup`: the returned flag, the local
filesystem, the progress counts printed every 10 records, the final
`"Restored {count} messages."` log (success only), and the records
whose insert command was issued. -/
structure RRes where
  ok : Bool
  fs : FS
  prints : List Nat
  finalLog : Option Nat
  inserted : List Msg
deriving DecidableEq

/-- Which branch `restore_backup` dispatches to (lines 272, 298, 335-347):
`.vcf` first, then `.json`, otherwise the archive branch, which decrypts
first exactly when the path ends in `".enc"`. -/
inductive Branch where
  | contact : Branch
  | message : Branch
  | archive : Bool → Branch
deriving DecidableEq

/-- The suffix dispatch of `restore_backup`. -/
def restoreDispatch (p : Path) : Branch :=
  if endsWithL vcfSuf p then Branch.contact
  else if endsWithL jsonSuf p then Branch.message
  else Branch.archive (endsWithL encSuf p)

/-- The workspace name
`f"temp_restore_{device_id}_{timestamp}"` (line 336). -/
def tempRestoreDir (deviceId timestamp : Str) : Path :=
  "temp_restore_".toList ++ deviceId ++ "_".toList ++ timestamp

/-- Progress counts printed by the SMS loop: starting from already-done
count `c`, the counts `c+1 .. c+j` that are multiples of 10
(`if count % 10 == 0`, lines 326-327). -/
def tens (c : Nat) : Nat → List Nat
  | 0 => []
  | j + 1 => (if (c + 1) % 10 = 0 then [c + 1] else []) ++ tens (c + 1) j

/-- The SMS insert loop (lines 308-327): issue one insert per record in
order, abort on the first failure.  Returns the flag, the final count,
the progress prints and the records whose insert was issued. -/
def smsLoop (insOk : Nat → Bool) : List Msg → Nat → Bool × Nat × List Nat × List Msg
  | [], c => (true, c, [], [])
  | m :: rest, c =>
    if insOk c then
      let r := smsLoop insOk rest (c + 1)
      (r.1, r.2.1, (if (c + 1) % 10 = 0 then (c + 1) :: r.2.2.1 else r.2.2.1),
        m :: r.2.2.2)
    else (false, c, [], [])

/-- The per-entry push loop of the archive branch (lines 356-359):
succeeds when every push succeeds; the device-side pushes leave the
local filesystem unchanged. -/
def pushAll (pOk : Nat → Bool) (entries : List Str) : Bool :=
  (List.range entries.length).all pOk

/-- Unzip `zipPath` into the workspace and push each top-level entry
(lines 349-362).  The third component records `(zip_path, is_temp_zip)`
once those are assigned. -/
def restoreUnzipPush (env : RestoreEnv) (zipPath : Path) (isTempZip : Bool)
    (tempDir : Path) (fs : FS) : Bool × FS × Option (Path × Bool) :=
  match lookupFS fs zipPath with
  | some (Data.zipA entries) =>
    if env.unzipOk then
      (pushAll env.pushOk entries, addPulled fs tempDir entries, some (zipPath, isTempZip))
    else (false, if env.unzipMadeDir then setFS fs tempDir Data.dir else fs,
      some (zipPath, isTempZip))
  | _ => (false, if env.unzipMadeDir then setFS fs tempDir Data.dir else fs,
    some (zipPath, isTempZip))

/-- The `try` body of the archive branch (lines 338-362).  When the path
ends in `".enc"` the file is decrypted first; a decryption failure
returns before `is_temp_zip` is assigned (third component `none`,
matching the `'is_temp_zip' in locals()` test of line 373). -/
def restoreArchiveBody (env : RestoreEnv) (backupPath : Path) (tempDir : Path)
    (fs : FS) : Bool × FS × Option (Path × Bool) :=
  if endsWithL encSuf backupPath then
    match decrypt_backup env.dec env.newKey backupPath none fs with
    | (none, fs1) => (false, fs1, none)
    | (some zp, fs1) => restoreUnzipPush env zp true tempDir fs1
  else restoreUnzipPush env backupPath false tempDir fs

/-- The `finally` block of the archive branch (lines 370-374): remove the
extraction tree, and remove the zip only when `is_temp_zip` was assigned
`True`. -/
def restoreCleanup (tempDir : Path) (zipInfo : Option (Path × Bool)) (fs : FS) : FS :=
  match zipInfo with
  | some (zp, true) => removeFile (removeTree fs tempDir) zp
  | _ => removeTree fs tempDir

/-- `restore_backup` (lines 260-374), dispatching on the path suffix.
The contact branch pushes the file and fires the import intent (device
side only); the message branch reads the records and runs the insert
loop; the archive branch decrypts if needed, unpacks and pushes, then
always runs its cleanup. -/
def restore_backup (deviceId timestamp : Str) (backupPath deviceDest : Path)
    (env : RestoreEnv) (fs : FS) : RRes :=
  let _ := deviceDest
  match restoreDispatch backupPath with
  | Branch.contact => ⟨env.vcfPushOk && env.intentOk, fs, [], none, []⟩
  | Branch.message =>
    match lookupFS fs backupPath with
    | some (Data.msgs ms) =>
      let r := smsLoop env.insertOk ms 0
      ⟨r.1, fs, r.2.2.1, if r.1 then some r.2.1 else none, r.2.2.2⟩
    | _ => ⟨false, fs, [], none, []⟩
  | Branch.archive _ =>
    let tempDir := tempRestoreDir deviceId timestamp
    let r := restoreArchiveBody env backupPath tempDir fs
    ⟨r.1, restoreCleanup tempDir r.2.2 r.2.1, [], none, []⟩

/-! ## Concrete instances used by witnesses and counterexamples -/

/-- Whether some entry equal to or under `d` exists. -/
def existsUnder : FS → Path → Bool
  | [], _ => false
  | e :: rest, d => underDir d e.1 || existsUnder rest d

/-- A concrete row with only `address=` and `body=`. -/
def exSmsLine : Str := "Row: address=5, body=hi".toList

/-- Text before the body marker in the C9 witness row. -/
def exBodyPre : Str := "Row: ".toList

/-- Text after the body marker in the C9 witness row: note the comma. -/
def exBodyRest : Str := "hi, there".toList

/-- The spec's contact example row. -/
def exContactLine : Str := "Row: display_name=Alice, data1=555-1234".toList

/-- Ciphertext path of the C2 witness. -/
def exC2Path : Path := "x.enc".toList

/-- Filesystem of the C2 witness: the stored key is `[2]` but the
ciphertext was produced under key `[1]`. -/
def exC2fs : FS := [(keyPath, Data.bytes [2]), (exC2Path, Data.enc [1] (Data.bytes [5]))]

/-- Ciphertext path of the C5 counterexample, containing `.enc` twice. -/
def exC5Path : Path := "a.enc.enc".toList

/-- Filesystem of the C5 counterexample. -/
def exC5fs : FS := [(keyPath, Data.bytes [1]), (exC5Path, Data.enc [1] (Data.bytes [5]))]

/-- Ciphertext path of the C5 witness, with a single trailing `.enc`. -/
def exC5wPath : Path := "b.enc".toList

/-- Filesystem of the C5 witness. -/
def exC5wfs : FS := [(keyPath, Data.bytes [1]), (exC5wPath, Data.enc [1] (Data.bytes [5]))]

/-- Stem of the C5 witness suffix computation. -/
def exC5Stem : Str := "a".toList

/-- Device id used by concrete runs. -/
def exDev : Str := "d".toList

/-- Timestamp used by concrete runs. -/
def exTs : Str := "t".toList

/-- Device destination used by concrete runs. -/
def exDest : Path := "/sdcard/".toList

/-- Message file path of the C6 counterexample. -/
def exC6Path : Path := "m.json".toList

/-- The single message of the C6 counterexample. -/
def exC6Msg : Msg := ⟨"5".toList, zeroStr, "hi".toList, oneStr⟩

/-- Filesystem of the C6 counterexample. -/
def exC6fs : FS := [(exC6Path, Data.msgs [exC6Msg])]

/-- Environment of the C6 counterexample: every insert fails. -/
def exC6Env : RestoreEnv :=
  ⟨true, true, fun _ => false, ⟨true, true, true⟩, [9], true, false, fun _ => true⟩

/-- Messages of the C6 witness run: 14 identical records. -/
def exC6wMsgs : List Msg := List.replicate 14 exC6Msg

/-- Filesystem of the C6 witness run. -/
def exC6wfs : FS := [(exC6Path, Data.msgs exC6wMsgs)]

/-- Environment of the C6 witness run: the 14th insert (index 13) fails. -/
def exC6wEnv : RestoreEnv :=
  ⟨true, true, fun i => decide (i < 13), ⟨true, true, true⟩, [9], true, false, fun _ => true⟩

/-- Source path of the concrete backup runs. -/
def exSrc : Path := "/s".toList

/-- Destination folder of the concrete backup runs. -/
def exDst : Path := "b".toList

/-- Environment of the C3 counterexample: every step succeeds except the
final write of the encrypted artifact, which fails after the output file
was opened. -/
def exC3Env : BackupEnv := ⟨true, false, [], true, true, false, [1]⟩

/-- Encrypted path of the concrete restore runs. -/
def exC1Path : Path := "a.enc".toList

/-- Filesystem of the concrete restore runs: a key and a well-formed
encrypted archive. -/
def exC1fs : FS := [(keyPath, Data.bytes [1]), (exC1Path, Data.enc [1] (Data.zipA []))]

/-- Environment of the C1 counterexample: the decryption's output write
fails after the output file was opened. -/
def exC1CexEnv : RestoreEnv :=
  ⟨true, true, fun _ => true, ⟨true, true, false⟩, [9], true, false, fun _ => true⟩

/-- Environment of the C1 witness: an all-success restore. -/
def exC1wEnv : RestoreEnv :=
  ⟨true, true, fun _ => true, ⟨true, true, true⟩, [9], true, false, fun _ => true⟩

/-- Environment of the C1 witness backup run. -/
def exC1wbEnv : BackupEnv := ⟨true, false, [], true, true, true, [1]⟩

/-- Environment of the C3 witness: a failure before the final write (the
pull itself fails). -/
def exC3wEnv : BackupEnv := ⟨false, false, [], true, true, true, [1]⟩

/-! ## Basic facts about the filesystem model -/

theorem lookupFS_removeFile_self (fs : FS) (p : Path) :
    lookupFS (removeFile fs p) p = none := by
  induction fs with
  | nil => rfl
  | cons e rest ih =>
    obtain ⟨q, d⟩ := e
    by_cases h : q = p
    · simpa [removeFile, h] using ih
    · have h' : ¬ p = q := fun hh => h hh.symm
      simp [removeFile, h, lookupFS, h', ih]

theorem lookupFS_removeFile_ne (fs : FS) (p q : Path) (h : q ≠ p) :
    lookupFS (removeFile fs p) q = lookupFS fs q := by
  induction fs with
  | nil => rfl
  | cons e rest ih =>
    obtain ⟨a, d⟩ := e
    by_cases ha : a = p
    · have h' : ¬ q = a := fun hh => h (hh.trans ha)
      simp [removeFile, ha, lookupFS, h', ih, h]
    · simp only [removeFile, if_neg ha, lookupFS]
      by_cases hq : q = a
      · simp [hq]
      · simp [hq, ih]

theorem lookupFS_setFS_self (fs : FS) (p : Path) (d : Data) :
    lookupFS (setFS fs p d) p = some d := by
  simp [setFS, lookupFS]

theorem lookupFS_setFS_ne (fs : FS) (p q : Path) (d : Data) (h : q ≠ p) :
    lookupFS (setFS fs p d) q = lookupFS fs q := by
  simp only [setFS, lookupFS, if_neg h]
  exact lookupFS_removeFile_ne fs p q h

theorem lookupFS_removeFile_none (fs : FS) (p q : Path) (h : lookupFS fs q = none) :
    lookupFS (removeFile fs p) q = none := by
  induction fs with
  | nil => rfl
  | cons e rest ih =>
    obtain ⟨a, d⟩ := e
    by_cases hq : q = a
    · simp [lookupFS, hq] at h
    · simp only [lookupFS, if_neg hq] at h
      by_cases ha : a = p
      · simp [removeFile, ha, ih h]
      · simp [removeFile, ha, lookupFS, if_neg hq, ih h]

theorem lookupFS_removeTree_none (fs : FS) (d : Path) (q : Path)
    (h : lookupFS fs q = none) : lookupFS (removeTree fs d) q = none := by
  induction fs with
  | nil => rfl
  | cons e rest ih =>
    obtain ⟨a, c⟩ := e
    by_cases hq : q = a
    · simp [lookupFS, hq] at h
    · simp only [lookupFS, if_neg hq] at h
      by_cases ha : underDir d a = true
      · simp [removeTree, ha, ih h]
      · simp [removeTree, ha, lookupFS, if_neg hq, ih h]

theorem lookupFS_removeTree_not_under (fs : FS) (d : Path) (q : Path)
    (h : underDir d q = false) : lookupFS (removeTree fs d) q = lookupFS fs q := by
  induction fs with
  | nil => rfl
  | cons e rest ih =>
    obtain ⟨a, c⟩ := e
    by_cases ha : underDir d a = true
    · have hq : ¬ q = a := fun hh => by rw [hh] at h; rw [ha] at h; cases h
      simp [removeTree, ha, lookupFS, hq, ih]
    · simp only [removeTree, ha, Bool.false_eq_true, if_false, lookupFS]
      by_cases hq : q = a
      · simp [hq]
      · simp [hq, ih]

theorem existsUnder_removeTree_self (fs : FS) (d : Path) :
    existsUnder (removeTree fs d) d = false := by
  induction fs with
  | nil => rfl
  | cons e rest ih =>
    obtain ⟨a, c⟩ := e
    by_cases ha : underDir d a = true
    · simpa [removeTree, ha] using ih
    · have ha' : underDir d a = false := by
        cases hv : underDir d a
        · rfl
        · exact absurd hv ha
      simp [removeTree, ha', existsUnder, ih]

theorem existsUnder_removeFile_false (fs : FS) (p d : Path)
    (h : existsUnder fs d = false) : existsUnder (removeFile fs p) d = false := by
  induction fs with
  | nil => rfl
  | cons e rest ih =>
    obtain ⟨a, c⟩ := e
    simp only [existsUnder, Bool.or_eq_false_iff] at h
    by_cases ha : a = p
    · simpa [removeFile, ha, existsUnder] using ih h.2
    · simp only [removeFile, if_neg ha, existsUnder, Bool.or_eq_false_iff]
      exact ⟨h.1, ih h.2⟩

theorem isPrefixOf_append_self (l m : Str) : l.isPrefixOf (l ++ m) = true := by
  rw [List.isPrefixOf_iff_prefix]
  exact List.prefix_append l m

theorem underDir_of_slash_entry (d e : Path) :
    underDir d (d ++ slashStr ++ e) = true := by
  have hp : (d ++ slashStr).isPrefixOf (d ++ slashStr ++ e) = true :=
    isPrefixOf_append_self (d ++ slashStr) e
  simp [underDir, hp]

theorem ne_of_not_under (d q : Path) (h : underDir d q = false) : q ≠ d := by
  intro hq
  rw [hq] at h
  simp [underDir] at h

theorem lookupFS_addPulled (fs : FS) (d : Path) (es : List Str) (q : Path)
    (h : underDir d q = false) : lookupFS (addPulled fs d es) q = lookupFS fs q := by
  have hstep : ∀ (es' : List Str) (acc : FS),
      lookupFS (es'.foldl
        (fun a e => setFS a (d ++ slashStr ++ e) (Data.bytes [])) acc) q = lookupFS acc q := by
    intro es'
    induction es' with
    | nil => intro acc; rfl
    | cons e es' ih =>
      intro acc
      rw [List.foldl_cons, ih]
      apply lookupFS_setFS_ne
      intro hq
      rw [hq] at h
      rw [underDir_of_slash_entry] at h
      cases h
  unfold addPulled
  rw [hstep]
  exact lookupFS_setFS_ne fs d q Data.dir (ne_of_not_under d q h)

theorem lookupFS_eq_none_of_not_exists (fs : FS) (p : Path)
    (h : fsExists fs p = false) : lookupFS fs p = none := by
  cases hl : lookupFS fs p with
  | none => rfl
  | some d => rw [fsExists, hl] at h; cases h

/-! ## Facts about the Python string primitives -/

theorem findSub_mark (m b : Str) (hm : m ≠ []) :
    ∀ a : Str, (∀ i, i < a.length → m.isPrefixOf ((a ++ m ++ b).drop i) = false) →
      findSub (a ++ m ++ b) m = some a.length := by
  intro a
  induction a with
  | nil =>
    intro _
    obtain ⟨c, ms, rfl⟩ : ∃ c ms, m = c :: ms := by
      cases m with
      | nil => exact absurd rfl hm
      | cons c ms => exact ⟨c, ms, rfl⟩
    have hpre : (c :: ms).isPrefixOf (c :: (ms ++ b)) = true := by
      rw [← List.cons_append]
      exact isPrefixOf_append_self (c :: ms) b
    simp [findSub, hpre]
  | cons c as ih =>
    intro h
    have hc : (c :: as) ++ m ++ b = c :: (as ++ m ++ b) := by simp
    have h0 : m.isPrefixOf (c :: (as ++ m ++ b)) = false := by
      have h' := h 0 (by simp)
      rw [List.drop_zero, hc] at h'
      exact h'
    have hrec := ih (fun i hi => by
      have := h (i + 1) (by simp; omega)
      rw [hc, List.drop_succ_cons] at this
      exact this)
    rw [hc]
    simp only [findSub, h0, Bool.false_eq_true, if_false, hrec, Option.map_some',
      List.length_cons]

theorem containsSub_of_findSub (s pat : Str) (i : Nat) (h : findSub s pat = some i) :
    containsSub s pat = true := by
  rw [containsSub, h]
  rfl

/-- The exact length of the `"body="` marker. -/
theorem bodyMark_length : bodyMark.length = 5 := by decide

theorem pyReplaceFuel_nil (old new : Str) (f : Nat) : pyReplaceFuel old new f [] = [] := by
  cases f <;> rfl

theorem pyReplaceFuel_enc_suffix :
    ∀ (stem : Str) (fuel : Nat), (stem ++ encSuf).length ≤ fuel →
      (∀ i, i < stem.length → encSuf.isPrefixOf ((stem ++ encSuf).drop i) = false) →
      pyReplaceFuel encSuf zipSuf fuel (stem ++ encSuf) = stem ++ zipSuf := by
  intro stem
  induction stem with
  | nil =>
    intro fuel hf _
    have h4 : (([] : Str) ++ encSuf).length = 4 := by decide
    cases fuel with
    | zero => omega
    | succ f =>
      have he : ([] : Str) ++ encSuf = '.' :: "enc".toList := by decide
      rw [he]
      have hcond : ((!encSuf.isEmpty) && encSuf.isPrefixOf ('.' :: "enc".toList)) = true := by
        decide
      simp only [pyReplaceFuel, hcond, if_true]
      have hd : List.drop (encSuf.length - 1) "enc".toList = ([] : Str) := by decide
      rw [hd, pyReplaceFuel_nil, List.append_nil]
      rfl
  | cons c st ih =>
    intro fuel hf h
    have hc : (c :: st) ++ encSuf = c :: (st ++ encSuf) := by simp
    cases fuel with
    | zero =>
      exfalso
      rw [hc] at hf
      simp at hf
    | succ f =>
      have h0 : encSuf.isPrefixOf (c :: (st ++ encSuf)) = false := by
        have := h 0 (by simp)
        rw [hc] at this
        simpa using this
      have hcond : ((!encSuf.isEmpty) && encSuf.isPrefixOf (c :: (st ++ encSuf))) = false := by
        simp [h0]
      rw [hc]
      simp only [pyReplaceFuel, hcond, Bool.false_eq_true, if_false]
      have hf' : (st ++ encSuf).length ≤ f := by
        rw [hc] at hf
        simp only [List.length_cons] at hf
        omega
      rw [ih f hf'
        (fun i hi => by
          have := h (i + 1) (by simp; omega)
          rw [hc, List.drop_succ_cons] at this
          exact this)]
      simp

theorem pyReplace_enc_suffix (stem : Str)
    (h : ∀ i, i < stem.length → encSuf.isPrefixOf ((stem ++ encSuf).drop i) = false) :
    pyReplace encSuf zipSuf (stem ++ encSuf) = stem ++ zipSuf :=
  pyReplaceFuel_enc_suffix stem (stem ++ encSuf).length le_rfl h

/-! ## Facts about the record parsers -/

theorem partPhoneVal_of_name (p v : Str) (h : partNameVal p = some v) :
    partPhoneVal p = none := by
  unfold partNameVal at h
  by_cases hc : containsSub p nameMark = true
  · simp [partPhoneVal, hc]
  · simp [hc] at h

theorem contactFold_eq : ∀ (ps : List Str) (n p : Str), contactFold ps (n, p) =
    ((ps.filterMap partNameVal).getLastD n, (ps.filterMap partPhoneVal).getLastD p) := by
  intro ps
  induction ps with
  | nil => intro n p; rfl
  | cons q ps ih =>
    intro n p
    cases hq : partNameVal q with
    | some v =>
      have hq2 := partPhoneVal_of_name q v hq
      have e1 : List.filterMap partNameVal (q :: ps) = v :: List.filterMap partNameVal ps := by
        simp [List.filterMap_cons, hq]
      have e2 : List.filterMap partPhoneVal (q :: ps) = List.filterMap partPhoneVal ps := by
        simp [List.filterMap_cons, hq2]
      simp only [contactFold, hq]
      rw [ih v p, e1, e2, List.getLastD_cons]
    | none =>
      cases hq2 : partPhoneVal q with
      | some w =>
        have e1 : List.filterMap partNameVal (q :: ps) = List.filterMap partNameVal ps := by
          simp [List.filterMap_cons, hq]
        have e2 : List.filterMap partPhoneVal (q :: ps) =
            w :: List.filterMap partPhoneVal ps := by
          simp [List.filterMap_cons, hq2]
        simp only [contactFold, hq, hq2]
        rw [ih n w, e1, e2, List.getLastD_cons]
      | none =>
        have e1 : List.filterMap partNameVal (q :: ps) = List.filterMap partNameVal ps := by
          simp [List.filterMap_cons, hq]
        have e2 : List.filterMap partPhoneVal (q :: ps) = List.filterMap partPhoneVal ps := by
          simp [List.filterMap_cons, hq2]
        simp only [contactFold, hq, hq2]
        rw [ih n p, e1, e2]

/-! ## Facts about the SMS insert loop -/

theorem tens_mem : ∀ (j c n : Nat), n ∈ tens c j ↔ (c < n ∧ n ≤ c + j ∧ n % 10 = 0) := by
  intro j
  induction j with
  | zero => intro c n; simp [tens]; omega
  | succ j' ih =>
    intro c n
    by_cases h10 : (c + 1) % 10 = 0
    · simp [tens, h10, ih]
      omega
    · simp [tens, h10, ih]
      omega

theorem smsLoop_fail (insOk : Nat → Bool) :
    ∀ (ms : List Msg) (c j : Nat), j < ms.length →
      (∀ i, i < j → insOk (c + i) = true) → insOk (c + j) = false →
      smsLoop insOk ms c = (false, c + j, tens c j, ms.take j) := by
  intro ms
  induction ms with
  | nil =>
    intro c j hj
    exact absurd hj (by simp)
  | cons m rest ih =>
    intro c j hj hpre hfail
    cases j with
    | zero =>
      have h0 : insOk c = false := by simpa using hfail
      simp [smsLoop, h0, tens]
    | succ j' =>
      have hc : insOk c = true := by simpa using hpre 0 (Nat.succ_pos _)
      have hr := ih (c + 1) j' (by simpa using Nat.lt_of_succ_lt_succ hj)
        (fun i hi => by
          have := hpre (i + 1) (Nat.succ_lt_succ hi)
          have e : c + (i + 1) = c + 1 + i := by omega
          rwa [e] at this)
        (by
          have e : c + (j' + 1) = c + 1 + j' := by omega
          rwa [e] at hfail)
      have e2 : c + 1 + j' = c + (j' + 1) := by omega
      simp only [smsLoop, hc, if_true, hr, e2]
      by_cases h10 : (c + 1) % 10 = 0
      · simp [tens, h10]
      · simp [tens, h10]

theorem smsLoop_okAll (insOk : Nat → Bool) :
    ∀ (ms : List Msg) (c : Nat), (∀ i, i < ms.length → insOk (c + i) = true) →
      smsLoop insOk ms c = (true, c + ms.length, tens c ms.length, ms) := by
  intro ms
  induction ms with
  | nil => intro c _; simp [smsLoop, tens]
  | cons m rest ih =>
    intro c h
    have hc : insOk c = true := by simpa using h 0 (by simp)
    have hr := ih (c + 1) (fun i hi => by
      have := h (i + 1) (by simpa using Nat.succ_lt_succ hi)
      have e : c + (i + 1) = c + 1 + i := by omega
      rwa [e] at this)
    have e2 : c + 1 + rest.length = c + (rest.length + 1) := by omega
    simp only [smsLoop, hc, if_true, hr, e2, List.length_cons]
    by_cases h10 : (c + 1) % 10 = 0
    · simp [tens, h10]
    · simp [tens, h10]

theorem eq_false_of_not_true {b : Bool} (h : ¬ b = true) : b = false := by
  cases b
  · rfl
  · exact absurd rfl h

theorem getKey_inv_none (newKey : List Nat) (fs fs' : FS)
    (h : getKey newKey fs = (none, fs')) : fs' = fs := by
  unfold getKey at h
  split at h <;> simp_all

theorem getKey_inv_some (newKey k : List Nat) (fs fs' : FS)
    (h : getKey newKey fs = (some k, fs')) :
    fs' = fs ∨ fs' = setFS fs keyPath (Data.bytes k) := by
  unfold getKey at h
  split at h
  · left
    simp only [Prod.mk.injEq] at h
    exact h.2.symm
  · simp at h
  · right
    simp only [Prod.mk.injEq, Option.some.injEq] at h
    rw [← h.1]
    exact h.2.symm

/-! ## Claim C7 -/

/-- C7: for every row line containing `Row:` whose text has `address=` and
`body=` markers with non-empty extracted values but no `date=` and no
`type=` marker, the message parser yields a record with date `"0"` and
type `"1"`; and any row whose extracted address or body is empty is
excluded from the output. -/
theorem c7_sms_defaults (line : Str) :
    (containsSub line rowMark = true → containsSub line dateMark = false →
      containsSub line typeMark = false → smsAddress line ≠ [] → smsBody line ≠ [] →
      parseSmsLine line = some ⟨smsAddress line, zeroStr, smsBody line, oneStr⟩)
    ∧ ((smsAddress line = [] ∨ smsBody line = []) → parseSmsLine line = none) := by
  constructor
  · intro hrow hdate htype haddr hbody
    have hd : smsDate line = zeroStr := by simp [smsDate, hdate]
    have ht : smsType line = oneStr := by simp [smsType, htype]
    have hne : ¬ (smsAddress line = [] ∨ smsBody line = []) := by
      rintro (h | h)
      exacts [haddr h, hbody h]
    simp [parseSmsLine, hrow, hne, hd, ht]
  · intro h
    by_cases hrow : containsSub line rowMark = true
    · simp [parseSmsLine, hrow, h]
    · simp only [parseSmsLine]
      rw [if_neg hrow]

/-- Witness for C7 at a concrete row. -/
theorem c7_sms_defaults_witness :
    parseSmsLine exSmsLine = some ⟨smsAddress exSmsLine, zeroStr, smsBody exSmsLine, oneStr⟩ :=
  (c7_sms_defaults exSmsLine).1 (by decide) (by decide) (by decide) (by decide) (by decide)

/-! ## Claim C9 -/

/-- C9: for a line consisting of anything (with no earlier `body=`
occurrence) followed by the `body=` marker and arbitrary remaining text,
the extracted body is the whole remaining text to the end of the line,
whitespace-trimmed — never truncated at a comma — and any record the
parser yields for the line carries exactly that body. -/
theorem c9_sms_body_to_eol (a rest : Str)
    (h : ∀ i, i < a.length → bodyMark.isPrefixOf ((a ++ bodyMark ++ rest).drop i) = false) :
    smsBody (a ++ bodyMark ++ rest) = pyStrip rest
    ∧ ∀ m, parseSmsLine (a ++ bodyMark ++ rest) = some m → m.body = pyStrip rest := by
  have hm : bodyMark ≠ [] := by decide
  have hfind : findSub (a ++ bodyMark ++ rest) bodyMark = some a.length :=
    findSub_mark bodyMark rest hm a h
  have hcont : containsSub (a ++ bodyMark ++ rest) bodyMark = true :=
    containsSub_of_findSub _ _ _ hfind
  have hlen : (a ++ bodyMark).length = a.length + bodyMark.length := by
    rw [List.length_append]
  have hdrop : (a ++ bodyMark ++ rest).drop (a.length + bodyMark.length) = rest :=
    List.drop_left' hlen
  have hb : smsBody (a ++ bodyMark ++ rest) = pyStrip rest := by
    simp only [smsBody, hcont, if_true, extractToEol, hfind, hdrop]
  refine ⟨hb, ?_⟩
  intro m hmm
  simp only [parseSmsLine] at hmm
  split at hmm
  · split at hmm
    · simp at hmm
    · rw [← Option.some.injEq] at hmm
      cases hmm
      exact hb
  · simp at hmm

/-- Witness for C9: a body containing a comma is kept whole. -/
theorem c9_sms_body_to_eol_witness :
    smsBody (exBodyPre ++ bodyMark ++ exBodyRest) = pyStrip exBodyRest :=
  (c9_sms_body_to_eol exBodyPre exBodyRest (by decide)).1

/-! ## Claim C8 -/

/-- C8: for every line containing `Row:`, writing `n` for the stripped
value after the last `display_name=` of the last fragment carrying one,
and `p` for the same for `data1=` (a fragment with `display_name=` never
contributes a phone, matching the `elif`), the parser yields exactly
`(n, p)` when both are non-empty, and silently discards the row — which
contributes nothing to the output, rather than failing — when either is
missing or empty. -/
theorem c8_contacts_row (line : Str) (hrow : containsSub line rowMark = true) :
    (((line.splitOn ',').filterMap partNameVal).getLastD [] ≠ [] →
      ((line.splitOn ',').filterMap partPhoneVal).getLastD [] ≠ [] →
      parseContactLine line =
        some (((line.splitOn ',').filterMap partNameVal).getLastD [],
          ((line.splitOn ',').filterMap partPhoneVal).getLastD []))
    ∧ ((((line.splitOn ',').filterMap partNameVal).getLastD [] = [] ∨
        ((line.splitOn ',').filterMap partPhoneVal).getLastD [] = []) →
      parseContactLine line = none)
    ∧ (∀ rest, (((line.splitOn ',').filterMap partNameVal).getLastD [] = [] ∨
        ((line.splitOn ',').filterMap partPhoneVal).getLastD [] = []) →
      parseContactsOutput (line :: rest) = parseContactsOutput rest) := by
  have hfold := contactFold_eq (line.splitOn ',') [] []
  have h1 : (((line.splitOn ',').filterMap partNameVal).getLastD [] ≠ [] →
      ((line.splitOn ',').filterMap partPhoneVal).getLastD [] ≠ [] →
      parseContactLine line =
        some (((line.splitOn ',').filterMap partNameVal).getLastD [],
          ((line.splitOn ',').filterMap partPhoneVal).getLastD [])) := by
    intro hn hp
    have hcond : ¬ ((contactFold (line.splitOn ',') ([], [])).1 = [] ∨
        (contactFold (line.splitOn ',') ([], [])).2 = []) := by
      rw [hfold]
      rintro (h | h)
      exacts [hn h, hp h]
    simp only [parseContactLine, hrow, if_true, hcond, if_false]
    rw [hfold]
  have h2 : ((((line.splitOn ',').filterMap partNameVal).getLastD [] = [] ∨
      ((line.splitOn ',').filterMap partPhoneVal).getLastD [] = []) →
      parseContactLine line = none) := by
    intro h
    have hcond : ((contactFold (line.splitOn ',') ([], [])).1 = [] ∨
        (contactFold (line.splitOn ',') ([], [])).2 = []) := by
      rw [hfold]
      exact h
    simp only [parseContactLine, hrow, if_true, hcond, if_true]
  refine ⟨h1, h2, ?_⟩
  intro rest h
  simp [parseContactsOutput, List.filterMap_cons, h2 h]

/-- Witness for C8 at the spec's example row. -/
theorem c8_contacts_row_witness :
    parseContactLine exContactLine =
      some (((exContactLine.splitOn ',').filterMap partNameVal).getLastD [],
        ((exContactLine.splitOn ',').filterMap partPhoneVal).getLastD []) :=
  (c8_contacts_row exContactLine (by decide)).1 (by decide) (by decide)

/-! ## Claim C10 -/

/-- C10: `restore_backup` dispatches only on the trailing suffix: `.vcf`
takes the contact branch, `.json` the message branch, and every other
path — unknown suffixes included — the archive branch, which decrypts
first exactly when the path ends in `.enc`; no path is rejected up
front. -/
theorem c10_restore_dispatch (p : Path) :
    (restoreDispatch p = Branch.contact ↔ endsWithL vcfSuf p = true)
    ∧ (restoreDispatch p = Branch.message ↔
        (endsWithL vcfSuf p = false ∧ endsWithL jsonSuf p = true))
    ∧ (restoreDispatch p = Branch.archive (endsWithL encSuf p) ↔
        (endsWithL vcfSuf p = false ∧ endsWithL jsonSuf p = false)) := by
  cases hv : endsWithL vcfSuf p with
  | false =>
    cases hj : endsWithL jsonSuf p with
    | false => simp [restoreDispatch, hv, hj]
    | true => simp [restoreDispatch, hv, hj]
  | true => simp [restoreDispatch, hv]

/-! ## Claim C4 -/

/-- C4: evaluation of both key loaders on a pre-existing key file holding
bytes `[1, 2, 3]`.  `_get_key` (the loader the pipeline actually calls)
returns the stored bytes and leaves the file unchanged, as the claim
states; `_load_key`, whose own comment admits the slip (`Oops, reading
mode is 'rb'`), opens the existing file in write mode — truncating it —
before reading, so it returns empty bytes and destroys the stored key. -/
theorem c4_key_loaders_eval :
    getKey [9, 9] [(keyPath, Data.bytes [1, 2, 3])] =
      (some [1, 2, 3], [(keyPath, Data.bytes [1, 2, 3])])
    ∧ loadKey keyPath [9, 9] [(keyPath, Data.bytes [1, 2, 3])] =
      (some [], [(keyPath, Data.bytes [])]) := by
  constructor
  · decide
  · decide

/-! ## Claim C2 -/

/-- C2: whenever the stored ciphertext was not produced by encryption
under the loaded key — wrong key, tampering or corruption — decryption
reports failure, returns no plaintext, writes nothing, and leaves the
filesystem unchanged (in particular no output file is produced). -/
theorem c2_decrypt_auth_fail (env : DecEnv) (newKey k : List Nat) (encryptedPath : Path)
    (outputPath : Option Path) (fs : FS) (d : Data)
    (hkey : lookupFS fs keyPath = some (Data.bytes k))
    (henc : lookupFS fs encryptedPath = some d)
    (hbad : ∀ plain, d ≠ Data.enc k plain) :
    decrypt_backup env newKey encryptedPath outputPath fs = (none, fs) := by
  have hdec : fernetDecrypt k d = none := by
    cases d with
    | enc k' payload =>
      have hk : k' ≠ k := fun hkk => hbad payload (by rw [hkk])
      simp [fernetDecrypt, hk]
    | dir => rfl
    | bytes bs => rfl
    | junk n => rfl
    | zipA es => rfl
    | msgs ms => rfl
    | halfWritten => rfl
  by_cases hr : env.readOk = true
  · simp only [decrypt_backup, getKey, hkey, hr, if_true, henc, hdec]
  · simp only [decrypt_backup, getKey, hkey]
    rw [if_neg hr]

/-- Witness for C2: wrong-key decryption at a concrete state. -/
theorem c2_decrypt_auth_fail_witness :
    decrypt_backup ⟨true, true, true⟩ [9] exC2Path none exC2fs = (none, exC2fs) :=
  c2_decrypt_auth_fail ⟨true, true, true⟩ [9] [2] exC2Path none exC2fs
    (Data.enc [1] (Data.bytes [5])) (by decide) (by decide)
    (by
      intro plain hplain
      injection hplain with h1 h2
      exact absurd h1 (by decide))

/-! ## Claim C5 -/

/-- Counterexample to C5 as stated: decrypting `a.enc.enc` with no output
path writes to `a.zip.zip` — every occurrence of `.enc` is replaced, not
only the trailing suffix, which would give `a.enc.zip`. -/
theorem c5_counterexample :
    (decrypt_backup ⟨true, true, true⟩ [9] exC5Path none exC5fs).1 =
      some ("a.zip.zip".toList)
    ∧ some ("a.zip.zip".toList) ≠ some ("a.enc.zip".toList) := by
  constructor
  · decide
  · decide

/-- C5 (amended): with no explicit output path, a successful decrypt
writes to, and returns, the input path with every occurrence of the
substring `.enc` replaced by `.zip` (Python `str.replace`); when `.enc`
occurs nowhere except as the trailing suffix, that is exactly the path
with the suffix replaced by `.zip`. -/
theorem c5_default_output_amended :
    (∀ (env : DecEnv) (newKey k : List Nat) (p : Path) (fs : FS) (plain : Data),
      lookupFS fs keyPath = some (Data.bytes k) →
      lookupFS fs p = some (Data.enc k plain) →
      env.readOk = true → env.openOk = true → env.writeOk = true →
      decrypt_backup env newKey p none fs =
        (some (pyReplace encSuf zipSuf p), setFS fs (pyReplace encSuf zipSuf p) plain))
    ∧ (∀ stem : Str,
        (∀ i, i < stem.length → encSuf.isPrefixOf ((stem ++ encSuf).drop i) = false) →
        pyReplace encSuf zipSuf (stem ++ encSuf) = stem ++ zipSuf) := by
  constructor
  · intro env newKey k p fs plain hkey henc hr ho hw
    have hfd : fernetDecrypt k (Data.enc k plain) = some plain := by
      simp [fernetDecrypt]
    simp only [decrypt_backup, getKey, hkey, hr, if_true, henc, hfd, Option.getD_none, ho, hw]
  · exact fun stem h => pyReplace_enc_suffix stem h

/-! ## Claim C6 -/

/-- Counterexample to C6 as stated: restoring one message whose insert
fails returns the failure flag, but the run's observable output is empty —
no progress print and no final count log — so the partial completion
count (here 0) is never reported; only the every-10-records progress
would have been. -/
theorem c6_counterexample :
    restore_backup exDev exTs exC6Path exDest exC6Env exC6fs =
      ⟨false, exC6fs, [], none, []⟩ := by
  decide

/-- C6 (amended): on a `.json` restore, a failing insert at index `j`
(0-based, after `j` successes) aborts the whole restore — exactly the
first `j` records are inserted — and the call returns the failure flag;
the partial completion count is not reported on failure (`finalLog` is
`none`): the only output is the progress printed at every multiple of 10
among the first `j` counts.  While all inserts succeed the restore
returns success, logs the total, and prints progress exactly at the
multiples of 10. -/
theorem c6_sms_restore_amended (dev ts bp dest : Str) (env : RestoreEnv) (fs : FS)
    (ms : List Msg)
    (hv : endsWithL vcfSuf bp = false) (hj : endsWithL jsonSuf bp = true)
    (hm : lookupFS fs bp = some (Data.msgs ms)) :
    (∀ j, j < ms.length → (∀ i, i < j → env.insertOk i = true) → env.insertOk j = false →
      restore_backup dev ts bp dest env fs = ⟨false, fs, tens 0 j, none, ms.take j⟩)
    ∧ ((∀ i, i < ms.length → env.insertOk i = true) →
      restore_backup dev ts bp dest env fs =
        ⟨true, fs, tens 0 ms.length, some ms.length, ms⟩)
    ∧ (∀ n j, n ∈ tens 0 j ↔ (0 < n ∧ n ≤ j ∧ n % 10 = 0)) := by
  have hd : restoreDispatch bp = Branch.message := by
    simp [restoreDispatch, hv, hj]
  refine ⟨?_, ?_, ?_⟩
  · intro j hj' hpre hjf
    have hloop := smsLoop_fail env.insertOk ms 0 j hj'
      (fun i hi => by rw [Nat.zero_add]; exact hpre i hi)
      (by rw [Nat.zero_add]; exact hjf)
    rw [Nat.zero_add] at hloop
    simp only [restore_backup, hd, hm, hloop]
    rfl
  · intro hall
    have hloop := smsLoop_okAll env.insertOk ms 0
      (fun i hi => by rw [Nat.zero_add]; exact hall i hi)
    rw [Nat.zero_add] at hloop
    simp only [restore_backup, hd, hm, hloop]
    rfl
  · intro n j
    simpa using tens_mem j 0 n

/-- Witness for the amended C6: 13 successes then a failure — one
progress print (at 10), no final log, first 13 records inserted. -/
theorem c6_sms_restore_amended_witness :
    restore_backup exDev exTs exC6Path exDest exC6wEnv exC6wfs =
      ⟨false, exC6wfs, tens 0 13, none, exC6wMsgs.take 13⟩ :=
  (c6_sms_restore_amended exDev exTs exC6Path exDest exC6wEnv exC6wfs exC6wMsgs
    (by decide) (by decide) (by decide)).1 13 (by decide) (by decide) (by decide)

/-- Witness for the amended C5. -/
theorem c5_default_output_amended_witness :
    decrypt_backup ⟨true, true, true⟩ [9] exC5wPath none exC5wfs =
      (some (pyReplace encSuf zipSuf exC5wPath),
        setFS exC5wfs (pyReplace encSuf zipSuf exC5wPath) (Data.bytes [5]))
    ∧ pyReplace encSuf zipSuf (exC5Stem ++ encSuf) = exC5Stem ++ zipSuf :=
  ⟨c5_default_output_amended.1 ⟨true, true, true⟩ [9] [1] exC5wPath exC5wfs
      (Data.bytes [5]) (by decide) (by decide) rfl rfl rfl,
    c5_default_output_amended.2 exC5Stem (by decide)⟩

/-! ## Claim C3 -/

/-- Counterexample to C3 as stated: when the final artifact write fails
midway, `backup_device` reports failure yet a partially written artifact
file for that backup remains in the destination folder — the `finally`
block removes only the temporary workspace and its zip. -/
theorem c3_counterexample :
    (backup_device exDev exTs exSrc exDst exC3Env []).1 = none
    ∧ fsExists (backup_device exDev exTs exSrc exDst exC3Env []).2
        (encArtifactPath exDev exTs exDst) = true := by
  constructor
  · decide
  · decide

/-- C3 (amended): `backup_device` either returns the artifact path on
success or reports failure; on failure the destination holds no file for
that backup — unless the failing step was the final artifact write
itself, which leaves an explicitly partial file that the error path does
not remove; and a partial artifact can only arise from that mid-write
failure.  The side conditions record that the artifact path does not
collide with the workspace, its zip, or the key file (automatic for the
real names: the artifact lives inside `destFolder` and ends in `.enc`,
the workspace names start with `temp_backup_` and the key file is
`backup_key.key`). -/
theorem c3_backup_artifact_amended (dev ts : Str) (src dst : Path) (env : BackupEnv)
    (fs : FS)
    (h0 : fsExists fs (encArtifactPath dev ts dst) = false)
    (hu : underDir (tempBackupDir dev ts) (encArtifactPath dev ts dst) = false)
    (hz : encArtifactPath dev ts dst ≠ tempBackupDir dev ts ++ zipSuf)
    (hk : encArtifactPath dev ts dst ≠ keyPath) :
    (∀ p, (backup_device dev ts src dst env fs).1 = some p →
      p = encArtifactPath dev ts dst)
    ∧ ((backup_device dev ts src dst env fs).1 = none →
      fsExists (backup_device dev ts src dst env fs).2 (encArtifactPath dev ts dst) = false
      ∨ lookupFS (backup_device dev ts src dst env fs).2 (encArtifactPath dev ts dst) =
          some Data.halfWritten)
    ∧ (lookupFS (backup_device dev ts src dst env fs).2 (encArtifactPath dev ts dst) =
        some Data.halfWritten →
      env.openOk = true ∧ env.writeOk = false ∧
        (backup_device dev ts src dst env fs).1 = none) := by
  have hne_dst : encArtifactPath dev ts dst ≠ dst := by
    intro h
    have hlen := congrArg List.length h
    simp only [encArtifactPath, List.length_append] at hlen
    have hB : ("/backup_".toList : Str).length = 8 := by decide
    have hU : ("_".toList : Str).length = 1 := by decide
    have hE : encSuf.length = 4 := by decide
    rw [hB, hU, hE] at hlen
    omega
  have hne_td : encArtifactPath dev ts dst ≠ tempBackupDir dev ts :=
    ne_of_not_under _ _ hu
  have h00 : lookupFS (if fsExists fs dst = true then fs else setFS fs dst Data.dir)
      (encArtifactPath dev ts dst) = none := by
    by_cases hd : fsExists fs dst = true
    · rw [if_pos hd]
      exact lookupFS_eq_none_of_not_exists fs _ h0
    · rw [if_neg hd, lookupFS_setFS_ne fs dst _ Data.dir hne_dst]
      exact lookupFS_eq_none_of_not_exists fs _ h0
  suffices hcase :
      ((backup_device dev ts src dst env fs).1 = none ∧
        lookupFS (backup_device dev ts src dst env fs).2 (encArtifactPath dev ts dst) = none)
      ∨ ((backup_device dev ts src dst env fs).1 = some (encArtifactPath dev ts dst) ∧
        ∃ k zd, lookupFS (backup_device dev ts src dst env fs).2
          (encArtifactPath dev ts dst) = some (Data.enc k zd))
      ∨ ((backup_device dev ts src dst env fs).1 = none ∧
        lookupFS (backup_device dev ts src dst env fs).2 (encArtifactPath dev ts dst) =
          some Data.halfWritten ∧
        env.openOk = true ∧ env.writeOk = false) by
    rcases hcase with ⟨h1, h2⟩ | ⟨h1, k, zd, h2⟩ | ⟨h1, h2, h3, h4⟩
    · refine ⟨?_, ?_, ?_⟩
      · intro p hp
        rw [h1] at hp
        cases hp
      · intro _
        left
        rw [fsExists, h2]
        rfl
      · intro hww
        rw [h2] at hww
        cases hww
    · refine ⟨?_, ?_, ?_⟩
      · intro p hp
        rw [h1] at hp
        injection hp with e
        exact e.symm
      · intro hn
        rw [h1] at hn
        cases hn
      · intro hww
        rw [h2] at hww
        simp at hww
    · refine ⟨?_, ?_, ?_⟩
      · intro p hp
        rw [h1] at hp
        cases hp
      · intro _
        right
        exact h2
      · intro _
        exact ⟨h3, h4, h1⟩
  unfold backup_device backupBody backupCleanup
  dsimp only
  split
  case isTrue hp =>
    split
    case isTrue ha =>
      split
      case h_1 ogk fs3 heq =>
        obtain rfl := getKey_inv_none _ _ _ heq
        left
        refine ⟨rfl, ?_⟩
        dsimp only
        apply lookupFS_removeFile_none
        apply lookupFS_removeTree_none
        rw [lookupFS_setFS_ne _ _ _ _ hz, lookupFS_addPulled _ _ _ _ hu]
        exact h00
      case h_2 ogk k fs3 heq =>
        have hsolve : lookupFS fs3 (encArtifactPath dev ts dst) = none := by
          rcases getKey_inv_some _ _ _ _ heq with rfl | rfl
          · rw [lookupFS_setFS_ne _ _ _ _ hz, lookupFS_addPulled _ _ _ _ hu]
            exact h00
          · rw [lookupFS_setFS_ne _ _ _ _ hk, lookupFS_setFS_ne _ _ _ _ hz,
              lookupFS_addPulled _ _ _ _ hu]
            exact h00
        split
        case h_1 hzl =>
          left
          refine ⟨rfl, ?_⟩
          dsimp only
          apply lookupFS_removeFile_none
          apply lookupFS_removeTree_none
          exact hsolve
        case h_2 ozd zd hzl =>
          split
          case isTrue ho =>
            split
            case isTrue hw =>
              right
              left
              refine ⟨rfl, k, zd, ?_⟩
              dsimp only
              rw [lookupFS_removeFile_ne _ _ _ hz, lookupFS_removeTree_not_under _ _ _ hu,
                lookupFS_setFS_self]
            case isFalse hw =>
              right
              right
              refine ⟨rfl, ?_, ho, eq_false_of_not_true hw⟩
              dsimp only
              rw [lookupFS_removeFile_ne _ _ _ hz, lookupFS_removeTree_not_under _ _ _ hu,
                lookupFS_setFS_self]
          case isFalse ho =>
            left
            refine ⟨rfl, ?_⟩
            dsimp only
            apply lookupFS_removeFile_none
            apply lookupFS_removeTree_none
            exact hsolve
    case isFalse ha =>
      left
      refine ⟨rfl, ?_⟩
      dsimp only
      apply lookupFS_removeFile_none
      apply lookupFS_removeTree_none
      rw [lookupFS_addPulled _ _ _ _ hu]
      exact h00
  case isFalse hp =>
    left
    refine ⟨rfl, ?_⟩
    dsimp only
    apply lookupFS_removeFile_none
    apply lookupFS_removeTree_none
    split
    case isTrue hpm =>
      rw [lookupFS_setFS_ne _ _ _ _ hne_td]
      exact h00
    case isFalse hpm =>
      exact h00

/-! ## Claim C1 -/

/-- Effect of `decrypt_backup` with default output path when the output
write, if reached, succeeds: either it fails having changed nothing
except possibly creating the key file, or it returns the default output
path. -/
theorem decrypt_backup_out (env : DecEnv) (newKey : List Nat) (p : Path) (fs : FS)
    (hwr : env.writeOk = true) :
    (∃ fs', decrypt_backup env newKey p none fs = (none, fs') ∧
      ∀ q, q ≠ keyPath → lookupFS fs' q = lookupFS fs q)
    ∨ (∃ fs', decrypt_backup env newKey p none fs =
        (some (pyReplace encSuf zipSuf p), fs')) := by
  unfold decrypt_backup
  split
  case h_1 ogk fs1 heq =>
    have hfs1 := getKey_inv_none _ _ _ heq
    exact Or.inl ⟨fs1, rfl, fun q _ => by rw [hfs1]⟩
  case h_2 ogk k fs1 heq =>
    have hpres : ∀ q, q ≠ keyPath → lookupFS fs1 q = lookupFS fs q := by
      rcases getKey_inv_some _ _ _ _ heq with rfl | rfl
      · exact fun q _ => rfl
      · exact fun q hq => lookupFS_setFS_ne _ _ _ _ hq
    split
    case isTrue hr =>
      split
      case h_1 hlp => exact Or.inl ⟨fs1, rfl, hpres⟩
      case h_2 od d hlp =>
        split
        case h_1 hfd => exact Or.inl ⟨fs1, rfl, hpres⟩
        case h_2 op plain hfd =>
          split
          case isTrue ho => exact Or.inr ⟨_, rfl⟩
          case isFalse ho => exact Or.inl ⟨fs1, rfl, hpres⟩
    case isFalse hr => exact Or.inl ⟨fs1, rfl, hpres⟩

/-- C1 (amended): `backup_device` always removes its temporary workspace
tree and the intermediate archive, on success and on every failure.
`restore_backup` always removes its temporary extraction tree (stated
for runs whose initial state does not already hold such entries, since
the contact and message branches never create nor remove any).  For an
encrypted-archive restore, the decrypted-plaintext intermediate at the
default decrypt output path no longer exists after the call returns,
provided the write of the decrypted output did not itself fail midway
(`env.dec.writeOk`); the side condition separates that path from the key
file, automatic for the real names.  (A mid-write decryption failure
does leave the partial plaintext behind — the recorded counterexample.) -/
theorem c1_cleanup_amended :
    (∀ (dev ts : Str) (src dst : Path) (env : BackupEnv) (fs : FS),
      existsUnder (backup_device dev ts src dst env fs).2 (tempBackupDir dev ts) = false
      ∧ fsExists (backup_device dev ts src dst env fs).2
          (tempBackupDir dev ts ++ zipSuf) = false)
    ∧ (∀ (dev ts : Str) (bp dest : Path) (env : RestoreEnv) (fs : FS),
        existsUnder fs (tempRestoreDir dev ts) = false →
        existsUnder (restore_backup dev ts bp dest env fs).fs (tempRestoreDir dev ts) = false)
    ∧ (∀ (dev ts : Str) (bp dest : Path) (env : RestoreEnv) (fs : FS),
        endsWithL vcfSuf bp = false → endsWithL jsonSuf bp = false →
        endsWithL encSuf bp = true →
        fsExists fs (pyReplace encSuf zipSuf bp) = false →
        pyReplace encSuf zipSuf bp ≠ keyPath →
        env.dec.writeOk = true →
        fsExists (restore_backup dev ts bp dest env fs).fs
          (pyReplace encSuf zipSuf bp) = false) := by
  refine ⟨?_, ?_, ?_⟩
  · intro dev ts src dst env fs
    unfold backup_device backupCleanup
    dsimp only
    constructor
    · exact existsUnder_removeFile_false _ _ _ (existsUnder_removeTree_self _ _)
    · rw [fsExists, lookupFS_removeFile_self]
      rfl
  · intro dev ts bp dest env fs h
    unfold restore_backup
    dsimp only
    split
    · exact h
    · split
      · exact h
      · exact h
    · dsimp only
      unfold restoreCleanup
      split
      · exact existsUnder_removeFile_false _ _ _ (existsUnder_removeTree_self _ _)
      · exact existsUnder_removeTree_self _ _
  · intro dev ts bp dest env fs hv hj he h0 hkp hwr
    have hdisp : restoreDispatch bp = Branch.archive true := by
      simp [restoreDispatch, hv, hj, he]
    have h0' : lookupFS fs (pyReplace encSuf zipSuf bp) = none :=
      lookupFS_eq_none_of_not_exists fs _ h0
    unfold restore_backup
    rw [hdisp]
    dsimp only
    unfold restoreArchiveBody
    rw [if_pos he]
    rcases decrypt_backup_out env.dec env.newKey bp fs hwr with
      ⟨fs', hdec, hpres⟩ | ⟨fs', hdec⟩
    · rw [hdec]
      dsimp only
      unfold restoreCleanup
      dsimp only
      rw [fsExists, lookupFS_removeTree_none _ _ _ (by rw [hpres _ hkp]; exact h0')]
      rfl
    · rw [hdec]
      dsimp only
      unfold restoreUnzipPush
      split
      · split
        · dsimp only
          unfold restoreCleanup
          dsimp only
          rw [fsExists, lookupFS_removeFile_self]
          rfl
        · dsimp only
          unfold restoreCleanup
          dsimp only
          rw [fsExists, lookupFS_removeFile_self]
          rfl
      · dsimp only
        unfold restoreCleanup
        dsimp only
        rw [fsExists, lookupFS_removeFile_self]
        rfl

/-- Counterexample to C1 as stated: restoring an encrypted archive whose
decrypted-output write fails midway returns failure, but the partially
written decrypted-plaintext intermediate still exists after the call —
the cleanup block never assigns `is_temp_zip` on that path and removes
nothing but the (absent) extraction directory. -/
theorem c1_counterexample :
    (restore_backup exDev exTs exC1Path exDest exC1CexEnv exC1fs).ok = false
    ∧ fsExists (restore_backup exDev exTs exC1Path exDest exC1CexEnv exC1fs).fs
        (pyReplace encSuf zipSuf exC1Path) = true := by
  constructor
  · decide
  · decide

/-- Witness for the amended C1 at concrete runs. -/
theorem c1_cleanup_amended_witness :
    (existsUnder (backup_device exDev exTs exSrc exDst exC1wbEnv []).2
        (tempBackupDir exDev exTs) = false
      ∧ fsExists (backup_device exDev exTs exSrc exDst exC1wbEnv []).2
          (tempBackupDir exDev exTs ++ zipSuf) = false)
    ∧ existsUnder (restore_backup exDev exTs exC1Path exDest exC1wEnv exC1fs).fs
        (tempRestoreDir exDev exTs) = false
    ∧ fsExists (restore_backup exDev exTs exC1Path exDest exC1wEnv exC1fs).fs
        (pyReplace encSuf zipSuf exC1Path) = false :=
  ⟨c1_cleanup_amended.1 exDev exTs exSrc exDst exC1wbEnv [],
    c1_cleanup_amended.2.1 exDev exTs exC1Path exDest exC1wEnv exC1fs (by decide),
    c1_cleanup_amended.2.2 exDev exTs exC1Path exDest exC1wEnv exC1fs
      (by decide) (by decide) (by decide) (by decide) (by decide) rfl⟩

/-- Witness for the amended C3: a pull failure leaves either no artifact
or an explicitly partial one in the destination — here evaluation shows
the first. -/
theorem c3_backup_artifact_amended_witness :
    fsExists (backup_device exDev exTs exSrc exDst exC3wEnv []).2
      (encArtifactPath exDev exTs exDst) = false
    ∨ lookupFS (backup_device exDev exTs exSrc exDst exC3wEnv []).2
        (encArtifactPath exDev exTs exDst) = some Data.halfWritten :=
  (c3_backup_artifact_amended exDev exTs exSrc exDst exC3wEnv []
    (by decide) (by decide) (by decide) (by decide)).2.1 (by decide)

end ABB
